import Mathlib

/-!
# Verification of the resume-analysis pipeline (server.js)

Shallow embedding of the analysis pipeline of `server.js`:
tokenization and keyword/skill extraction, the heuristic ATS score,
the retrying LLM client, JSON extraction from free text, response
normalization, and the text-extraction dispatch of the parse route.
All definitions are translated from `server.js` (the first, canonical
copy in the repository); external JavaScript builtins used by that code
(`JSON.parse`, `Number`, `Math.round`) are modelled explicitly where the
code's behaviour depends on them.
-/

namespace Resume

/-! ## Character-level helpers for `tokenizeForKeywords` (server.js lines 122-129) -/

/-- Unicode dash variants U+2012..U+2014 are replaced by `-`
(`.replace(/[‒–—]/g, "-")`). -/
def normalizeDash (c : Char) : Char :=
  if c = '‒' ∨ c = '–' ∨ c = '—' then '-' else c

/-- JavaScript `\w` (non-unicode regex): `[A-Za-z0-9_]`. -/
def isWordChar (c : Char) : Bool :=
  (('A' ≤ c ∧ c ≤ 'Z') ∨ ('a' ≤ c ∧ c ≤ 'z') ∨ ('0' ≤ c ∧ c ≤ '9') ∨ c = '_')

/-- Characters kept by `.replace(/[^\w\- ]+/g, " ")`: word characters, `-`, space. -/
def keepChar (c : Char) : Bool := isWordChar c || c = '-' || c = ' '

/-- ASCII lower-casing, the effect of `.toLowerCase()` on the characters that
survive the strip step (all ASCII at that point). -/
def asciiLower (c : Char) : Char :=
  if 'A' ≤ c ∧ c ≤ 'Z' then Char.ofNat (c.toNat + 32) else c

/-- Split a character list at characters satisfying `p`, dropping empty pieces
(the effect of `.split(/\s+/).filter(Boolean)`). `acc` holds the current
token's characters in reverse. -/
def splitChars (p : Char → Bool) : List Char → List Char → List String
  | [], acc => if acc.isEmpty then [] else [String.mk acc.reverse]
  | c :: cs, acc =>
    if p c then
      if acc.isEmpty then splitChars p cs []
      else String.mk acc.reverse :: splitChars p cs []
    else splitChars p cs (c :: acc)

/-- `tokenizeForKeywords` (server.js lines 122-129): normalize dashes, replace
every character outside `[\w\- ]` by a space, lower-case, split on whitespace
(after the strip step the only whitespace character is the space). -/
def tokenizeForKeywords (text : String) : List String :=
  let cs := text.toList.map normalizeDash
  let cs := cs.map (fun c => if keepChar c then c else ' ')
  let cs := cs.map asciiLower
  splitChars (fun c => c = ' ') cs []

/-! ## Vocabulary (server.js lines 106-120) -/

/-- `COMMON_STOPWORDS` (server.js lines 106-111). -/
def COMMON_STOPWORDS : List String :=
  ["a","an","the","and","or","of","to","in","on","for","with","by","as","is","are","was","were",
   "be","been","has","have","had","that","this","these","those","at","from","it","its","but","not",
   "can","will","would","should","i","you","he","she","they","we","my","your","our","their","them",
   "which","who","what","when","where","how","about","into","over","after","before","during","per"]

/-- `SKILLS_LIST` (server.js lines 113-120); every entry is already lower-case,
so the trailing `.map(s => s.toLowerCase())` is the identity here. -/
def SKILLS_LIST : List String :=
  ["javascript","typescript","react","react.js","react-native","vue","angular","node.js","node","express",
   "html","css","tailwind","bootstrap","redux","graphql","rest","api","mongodb","mysql","postgresql",
   "docker","kubernetes","aws","azure","gcp","git","github","gitlab","jest","mocha","cypress","selenium",
   "python","pandas","numpy","scikit-learn","tensorflow","pytorch","java","c++","c#","php","ruby",
   "machine learning","nlp","data analysis","sql","linux","bash","figma","photoshop","ui/ux","leadership",
   "communication","agile","scrum","devops","testing","ci/cd","performance","optimization","security"]

/-! ## Insertion-ordered count maps (JavaScript `Map` with numeric values) -/

/-- `map.set(k, (map.get(k) || 0) + 1)`: increment in place if the key exists,
otherwise append with count 1 (JS `Map` preserves insertion order). -/
def bump : List (String × Nat) → String → List (String × Nat)
  | [], k => [(k, 1)]
  | (a, n) :: rest, k =>
    if a = k then (a, n + 1) :: rest else (a, n) :: bump rest k

/-- Key membership (`map.has(k)`). -/
def hasKey (m : List (String × Nat)) (k : String) : Bool :=
  m.any (fun e => e.1 = k)

/-- Stable insertion for descending-count order: `x` (which precedes the
already-sorted tail in the original list) goes before the first entry whose
count is not strictly greater, so ties keep first-seen order. -/
def insertDesc (x : String × Nat) : List (String × Nat) → List (String × Nat)
  | [] => [x]
  | y :: ys => if y.2 ≤ x.2 then x :: y :: ys else y :: insertDesc x ys

/-- `.sort((a, b) => b[1] - a[1])` — a stable sort by count descending. -/
def sortCountDesc : List (String × Nat) → List (String × Nat)
  | [] => []
  | x :: xs => insertDesc x (sortCountDesc xs)

/-! ## `extractKeywords` (server.js lines 131-178) -/

/-- Is the token all digits (`/^\d+$/`)? -/
def isAllDigits (t : String) : Bool :=
  !t.isEmpty && t.toList.all (fun c => '0' ≤ c ∧ c ≤ '9')

/-- The frequency map (server.js lines 133-139): count tokens, skipping tokens
of length < 2, pure-digit tokens, and stop-words. -/
def buildFreq (tokens : List String) : List (String × Nat) :=
  tokens.foldl
    (fun m t =>
      if t.length < 2 then m
      else if isAllDigits t then m
      else if t ∈ COMMON_STOPWORDS then m
      else bump m t)
    []

/-- The 1-3 token windows starting at the head of the list, joined with a
single space (server.js lines 145-147). -/
def windowsFrom : List String → List String
  | [] => []
  | [a] => [a]
  | [a, b] => [a, a ++ " " ++ b]
  | a :: b :: c :: _ => [a, a ++ " " ++ b, a ++ " " ++ b ++ " " ++ c]

/-- The skill-phrase matching loop (server.js lines 143-153): for every window
of 1-3 consecutive tokens, if the joined phrase has length ≥ 2 and is in
`SKILLS_LIST`, bump its count in `foundSkills`. -/
def skillScan : List String → List (String × Nat) → List (String × Nat)
  | [], m => m
  | t :: rest, m =>
    let m := (windowsFrom (t :: rest)).foldl
      (fun m p =>
        if p.length < 2 then m
        else if p ∈ SKILLS_LIST then bump m p
        else m)
      m
    skillScan rest m

/-- The `topFrequent` loop (server.js lines 155-162): walk the sorted frequency
entries, skip entries whose token is a `foundSkills` key or has length ≤ 2,
keep the rest, and stop once `need` entries have been taken (the loop pushes
and then breaks when the target size is reached). -/
def pickTop (found : List (String × Nat)) : List (String × Nat) → Nat → List (String × Nat)
  | [], _ => []
  | (t, c) :: rest, need =>
    if hasKey found t then pickTop found rest need
    else if t.length ≤ 2 then pickTop found rest need
    else if need ≤ 1 then [(t, c)]
    else (t, c) :: pickTop found rest (need - 1)

/-- `.filter((v, i, a) => a.indexOf(v) === i)`: keep the first occurrence of
each value. `seen` holds the values already emitted. -/
def dedupFirstAux (seen : List String) : List String → List String
  | [] => []
  | x :: xs =>
    if x ∈ seen then dedupFirstAux seen xs
    else x :: dedupFirstAux (x :: seen) xs

/-- Deduplication preserving first-seen order. -/
def dedupFirst (l : List String) : List String := dedupFirstAux [] l

/-- The keyword profile returned by `extractKeywords`. -/
structure KeywordProfile where
  keywords : List String
  skillsFound : List String
  topTokens : List String
deriving Repr, DecidableEq

/-- `extractKeywords` (server.js lines 131-178) with the default
`maxFreqTokens = 12` (`opts.maxFreqTokens || 12`). -/
def extractKeywords (text : String) : KeywordProfile :=
  let tokens := tokenizeForKeywords text
  let freqEntries := sortCountDesc (buildFreq tokens)
  let foundSkills := skillScan tokens []
  let topFrequent := pickTop foundSkills freqEntries 12
  let skillList := (sortCountDesc foundSkills).map (fun x => x.1)
  let topTokens := topFrequent.map (fun x => x.1)
  let combined := dedupFirst (skillList ++ topTokens)
  { keywords := combined.take 30
    skillsFound := skillList
    topTokens := topTokens.take 30 }

/-! ## `estimateAtsScoreFromText` (server.js lines 181-196) -/

/-- Word count: `text.split(/\s+/).filter(Boolean).length`. JavaScript `\s`
is approximated by `Char.isWhitespace` (space, tab, CR, LF — the whitespace
forms resume text actually contains). -/
def wordCount (text : String) : Nat :=
  (splitChars Char.isWhitespace text.toList []).length

/-- The scoring chain of `estimateAtsScoreFromText` (server.js lines 185-195)
as a function of the word count and keyword count it reads: base 40, +10 for
word count > 150, +10 more for > 300, +10 each for keyword count > 5, > 10,
> 15, then clamp to [30, 95]. -/
def scoreFromCounts (length keywordCount : Nat) : Nat :=
  let score := 40
  let score := if length > 150 then score + 10 else score
  let score := if length > 300 then score + 10 else score
  let score := if keywordCount > 5 then score + 10 else score
  let score := if keywordCount > 10 then score + 10 else score
  let score := if keywordCount > 15 then score + 10 else score
  let score := if score < 30 then 30 else score
  if score > 95 then 95 else score

/-- `estimateAtsScoreFromText` (server.js lines 181-196): the word count is
`text.split(/\s+/).filter(Boolean).length` and the keyword count is
`(kw?.keywords || []).length`. -/
def estimateAtsScoreFromText (text : String) (kw : KeywordProfile) : Nat :=
  scoreFromCounts (wordCount text) kw.keywords.length

/-! ## Claim theorems: keyword extraction and heuristic scoring -/

/-- The end-to-end scenario text of the specification. -/
def scenarioText : String :=
  "Experienced engineer skilled in React, Node.js, and AWS, built scalable APIs for 5 years."

/-- A text in which the multi-word skill "machine learning" is matched and
its inner tokens remain frequent. -/
def mlText : String := "machine learning machine learning machine learning"

/-! ## The retrying LLM client `callOpenAIWithRetries` (server.js lines 276-310)

The network transport is abstracted as a function from the attempt index to
what that attempt observes: either an HTTP response (status and body text) or
a transport-level exception. The backoff sleep only affects timing, not the
returned value, and is not modelled. -/

/-- What one `fetch` attempt observes. -/
inductive AttemptResult where
  | response (status : Nat) (body : String)
  | exception (msg : String)

/-- The object returned by `callOpenAIWithRetries`, extended with the number
of fetch calls actually made (`attemptsMade`), which the specification's
`CallOutcome` exposes. -/
structure CallOutcome where
  ok : Bool
  text : String
  status : Nat
  attemptsMade : Nat
deriving Repr, DecidableEq

/-- `resp.ok` of the Fetch API: status in the range 200-299. -/
def respOk (s : Nat) : Bool := 200 ≤ s && s ≤ 299

/-- The complement of the terminal-status check on line 296:
`status === 429 || (500 <= status < 600)`. -/
def retryableStatus (s : Nat) : Bool := s == 429 || (500 ≤ s && s < 600)

/-- `lastErrText` after a failed response:
`` `status=${resp.status} body=${txt}` `` (line 295); after an exception, the
exception message (line 300). -/
def attemptErrText : AttemptResult → String
  | .response s b => "status=" ++ toString s ++ " body=" ++ b
  | .exception m => m

/-- One failed attempt that the loop retries (non-2xx with a retryable status,
or a transport exception). -/
def retryFail : AttemptResult → Bool
  | .response s _ => !respOk s && retryableStatus s
  | .exception _ => true

/-- The retry loop of `callOpenAIWithRetries` (lines 278-308). `fuel` is the
number of loop iterations left, `i` the number of fetch calls already made,
`lastErr` the current `lastErrText`. On a 2xx response return
`{ok:true, text, status}`; on a non-retryable failure status return
`{ok:false, text, status}` at once; otherwise record `lastErrText` and retry.
When the loop ends, return `{ok:false, text:lastErrText ?? "exhausted
retries", status:429}` (line 309) — the status is the literal 429. -/
def callLoop (provider : Nat → AttemptResult) : Nat → Nat → Option String → CallOutcome
  | 0, i, lastErr =>
    { ok := false, text := lastErr.getD "exhausted retries", status := 429,
      attemptsMade := i }
  | Nat.succ fuel, i, _lastErr =>
    match provider i with
    | .response s b =>
      if respOk s then { ok := true, text := b, status := s, attemptsMade := i + 1 }
      else if !retryableStatus s then
        { ok := false, text := b, status := s, attemptsMade := i + 1 }
      else callLoop provider fuel (i + 1) (some (attemptErrText (.response s b)))
    | .exception m => callLoop provider fuel (i + 1) (some m)

/-- `callOpenAIWithRetries(payload, attempts, baseDelay)` (lines 276-310),
with the transport abstracted as `provider`. -/
def callOpenAIWithRetries (provider : Nat → AttemptResult) (attempts : Nat) : CallOutcome :=
  callLoop provider attempts 0 none

/-! ## The `/api/analyze` route after the provider call (server.js lines 763-825) -/

/-- A JSON value (the result of `JSON.parse`). Objects are represented as
key-value lists without duplicate keys (`JSON.parse` keeps the last value for
a duplicated key, in first-occurrence position). -/
inductive JsonValue where
  | null
  | bool (b : Bool)
  | num (q : ℚ)
  | str (s : String)
  | arr (elems : List JsonValue)
  | obj (fields : List (String × JsonValue))

/-- Property read `o[k]` on an object's field list (`undefined` is `none`). -/
def objGet : List (String × JsonValue) → String → Option JsonValue
  | [], _ => none
  | (a, v) :: rest, k => if a = k then some v else objGet rest k

/-- Property write `o[k] = v`: replace in place if the key exists, else
append (JavaScript objects keep the first-assignment position). -/
def objSet : List (String × JsonValue) → String → JsonValue → List (String × JsonValue)
  | [], k, v => [(k, v)]
  | (a, w) :: rest, k, v =>
    if a = k then (a, v) :: rest else (a, w) :: objSet rest k v

/-! ## Model of `JSON.parse` (strict parse used on lines 212, 218, 790)

A recursive-descent parser for the JSON grammar (objects, arrays, strings
with the standard escapes, decimal numbers with optional fraction and
exponent, `true`/`false`/`null`). `fuel` bounds the recursion depth; the
wrapper supplies more fuel than any input can consume. -/

/-- JSON insignificant whitespace. -/
def jsonWs (c : Char) : Bool := c = ' ' || c = '\t' || c = '\n' || c = '\r'

def skipWs (cs : List Char) : List Char := cs.dropWhile jsonWs

def isDigitChar (c : Char) : Bool := '0' ≤ c ∧ c ≤ '9'

def digitVal (c : Char) : Nat := c.toNat - '0'.toNat

def digitsToNat (ds : List Char) : Nat :=
  ds.foldl (fun n c => n * 10 + digitVal c) 0

/-- Decode one hex digit. -/
def hexVal (c : Char) : Option Nat :=
  if '0' ≤ c ∧ c ≤ '9' then some (c.toNat - '0'.toNat)
  else if 'a' ≤ c ∧ c ≤ 'f' then some (c.toNat - 'a'.toNat + 10)
  else if 'A' ≤ c ∧ c ≤ 'F' then some (c.toNat - 'A'.toNat + 10)
  else none

/-- Parse the body of a JSON string after the opening quote; returns the
string and the remaining input after the closing quote. -/
def parseStringBody : List Char → List Char → Option (String × List Char)
  | [], _ => none
  | '"' :: rest, acc => some (String.mk acc.reverse, rest)
  | '\\' :: e :: rest, acc =>
    match e with
    | '"' => parseStringBody rest ('"' :: acc)
    | '\\' => parseStringBody rest ('\\' :: acc)
    | '/' => parseStringBody rest ('/' :: acc)
    | 'b' => parseStringBody rest ('\x08' :: acc)
    | 'f' => parseStringBody rest ('\x0c' :: acc)
    | 'n' => parseStringBody rest ('\n' :: acc)
    | 'r' => parseStringBody rest ('\r' :: acc)
    | 't' => parseStringBody rest ('\t' :: acc)
    | 'u' =>
      match rest with
      | h1 :: h2 :: h3 :: h4 :: rest' =>
        match hexVal h1, hexVal h2, hexVal h3, hexVal h4 with
        | some a, some b, some c, some d =>
          let n := ((a * 16 + b) * 16 + c) * 16 + d
          if h : n.isValidChar then parseStringBody rest' (Char.ofNatAux n h :: acc)
          else none
        | _, _, _, _ => none
      | _ => none
    | _ => none
  | '\\' :: [], _ => none
  | c :: rest, acc => if c.toNat < 32 then none else parseStringBody rest (c :: acc)

/-- Parse a JSON number starting at the current position: optional `-`,
integer digits, optional fraction, optional exponent. The exact value
`(intDigits·10^f + fracDigits) / 10^f · 10^(±e)` is built with `mkRat` over
natural-number arithmetic. -/
def parseJsonNumber (cs : List Char) : Option (ℚ × List Char) :=
  let (neg, cs1) : Bool × List Char :=
    match cs with
    | '-' :: rest => (true, rest)
    | _ => (false, cs)
  let intDs := cs1.takeWhile isDigitChar
  let cs2 := cs1.dropWhile isDigitChar
  if intDs.isEmpty then none
  else
    let (fracDs, cs3, fracBad) : List Char × List Char × Bool :=
      match cs2 with
      | '.' :: rest =>
        (rest.takeWhile isDigitChar, rest.dropWhile isDigitChar,
         (rest.takeWhile isDigitChar).isEmpty)
      | _ => ([], cs2, false)
    if fracBad then none
    else
      let mantNum : Nat := digitsToNat intDs * 10 ^ fracDs.length + digitsToNat fracDs
      let mantDen : Nat := 10 ^ fracDs.length
      let expRes : Option (Nat × Nat × List Char) :=
        match cs3 with
        | 'e' :: rest | 'E' :: rest =>
          let (eneg, rest1) : Bool × List Char :=
            match rest with
            | '+' :: r => (false, r)
            | '-' :: r => (true, r)
            | _ => (false, rest)
          let expDs := rest1.takeWhile isDigitChar
          if expDs.isEmpty then none
          else if eneg then some (1, 10 ^ digitsToNat expDs, rest1.dropWhile isDigitChar)
          else some (10 ^ digitsToNat expDs, 1, rest1.dropWhile isDigitChar)
        | _ => some (1, 1, cs3)
      match expRes with
      | none => none
      | some (sn, sd, cs4) =>
        let q : ℚ := mkRat (mantNum * sn : Nat) (mantDen * sd)
        some ((if neg then -q else q), cs4)

mutual

/-- Parse one JSON value. -/
def parseVal : Nat → List Char → Option (JsonValue × List Char)
  | 0, _ => none
  | Nat.succ fuel, cs =>
    match skipWs cs with
    | 'n' :: 'u' :: 'l' :: 'l' :: rest => some (.null, rest)
    | 't' :: 'r' :: 'u' :: 'e' :: rest => some (.bool true, rest)
    | 'f' :: 'a' :: 'l' :: 's' :: 'e' :: rest => some (.bool false, rest)
    | '"' :: rest =>
      match parseStringBody rest [] with
      | some (s, rest') => some (.str s, rest')
      | none => none
    | '[' :: rest =>
      (match skipWs rest with
       | ']' :: rest' => some (.arr [], rest')
       | _ => parseElems fuel (skipWs rest) [])
    | '{' :: rest =>
      (match skipWs rest with
       | '}' :: rest' => some (.obj [], rest')
       | _ => parseMembers fuel (skipWs rest) [])
    | other =>
      match parseJsonNumber other with
      | some (q, rest) => some (.num q, rest)
      | none => none

/-- Parse the elements of a non-empty array, accumulating in reverse. -/
def parseElems : Nat → List Char → List JsonValue → Option (JsonValue × List Char)
  | 0, _, _ => none
  | Nat.succ fuel, cs, acc =>
    match parseVal fuel cs with
    | none => none
    | some (v, rest) =>
      match skipWs rest with
      | ',' :: rest' => parseElems fuel rest' (v :: acc)
      | ']' :: rest' => some (.arr (v :: acc).reverse, rest')
      | _ => none

/-- Parse the members of a non-empty object, accumulating with `objSet`
(duplicate keys: the last value wins, in first-occurrence position, as in
`JSON.parse`). -/
def parseMembers : Nat → List Char → List (String × JsonValue) → Option (JsonValue × List Char)
  | 0, _, _ => none
  | Nat.succ fuel, cs, acc =>
    match skipWs cs with
    | '"' :: rest =>
      match parseStringBody rest [] with
      | none => none
      | some (k, rest') =>
        match skipWs rest' with
        | ':' :: rest'' =>
          match parseVal fuel rest'' with
          | none => none
          | some (v, rest3) =>
            match skipWs rest3 with
            | ',' :: rest4 => parseMembers fuel rest4 (objSet acc k v)
            | '}' :: rest4 => some (.obj (objSet acc k v), rest4)
            | _ => none
        | _ => none
    | _ => none

end

/-- `JSON.parse(text)`: parse one value surrounded only by whitespace;
`none` plays the role of a thrown `SyntaxError`. -/
def jsonParse (text : String) : Option JsonValue :=
  match parseVal (2 * text.length + 2) text.toList with
  | some (v, rest) => if (skipWs rest).isEmpty then some v else none
  | none => none

/-! ## Model of JavaScript `Number()` coercion and falsiness -/

/-- The value space of JavaScript `Number()`: a finite number, an infinity,
or `NaN`. -/
inductive JsNum where
  | fin (q : ℚ)
  | inf
  | negInf
  | nan
deriving DecidableEq

/-- `Number(string)`: trim whitespace; empty → 0; `Infinity` forms; otherwise
a decimal literal with optional sign, fraction and exponent, evaluated exactly
with `mkRat`. (Hex/octal/binary literal strings are not modelled; no analysed
input uses them.) -/
def strToNumber (s : String) : JsNum :=
  let t := ((s.toList.dropWhile Char.isWhitespace).reverse.dropWhile Char.isWhitespace).reverse
  if t.isEmpty then .fin 0
  else if t = "Infinity".toList ∨ t = "+Infinity".toList then .inf
  else if t = "-Infinity".toList then .negInf
  else
    let (neg, t1) : Bool × List Char :=
      match t with
      | '+' :: r => (false, r)
      | '-' :: r => (true, r)
      | _ => (false, t)
    let intDs := t1.takeWhile isDigitChar
    let t2 := t1.dropWhile isDigitChar
    let (fracDs, t3) : List Char × List Char :=
      match t2 with
      | '.' :: r => (r.takeWhile isDigitChar, r.dropWhile isDigitChar)
      | _ => ([], t2)
    if intDs.isEmpty ∧ fracDs.isEmpty then .nan
    else
      let mantNum : Nat := digitsToNat intDs * 10 ^ fracDs.length + digitsToNat fracDs
      let mantDen : Nat := 10 ^ fracDs.length
      let expRes : Option (Nat × Nat) :=
        match t3 with
        | 'e' :: r | 'E' :: r =>
          let (eneg, r1) : Bool × List Char :=
            match r with
            | '+' :: r2 => (false, r2)
            | '-' :: r2 => (true, r2)
            | _ => (false, r)
          let expDs := r1.takeWhile isDigitChar
          if expDs.isEmpty ∨ ¬ (r1.dropWhile isDigitChar).isEmpty then none
          else if eneg then some (1, 10 ^ digitsToNat expDs)
          else some (10 ^ digitsToNat expDs, 1)
        | [] => some (1, 1)
        | _ => none
      match expRes with
      | none => .nan
      | some (sn, sd) =>
        let q : ℚ := mkRat (mantNum * sn : Nat) (mantDen * sd)
        .fin (if neg then -q else q)

/-- `Number(value)` on a parsed JSON value. Arrays and objects coerce through
`toPrimitive`/string conversion in JavaScript; that path is not modelled and
is mapped to `NaN` (no claim exercises `Number` on an array or object). -/
def jsToNumber : JsonValue → JsNum
  | .null => .fin 0
  | .bool true => .fin 1
  | .bool false => .fin 0
  | .num q => .fin q
  | .str s => strToNumber s
  | .arr _ => .nan
  | .obj _ => .nan

/-- JavaScript falsiness of a JSON value (`null`, `false`, `0`, `""`). -/
def jsFalsy : JsonValue → Bool
  | .null => true
  | .bool b => !b
  | .num q => q == 0
  | .str s => s.isEmpty
  | .arr _ => false
  | .obj _ => false

/-! ## `extractJsonFromText` (server.js lines 209-222) -/

/-- Index of the first occurrence of `c` (`text.indexOf`). -/
def firstIdxOf (c : Char) (cs : List Char) : Option Nat :=
  cs.findIdx? (fun x => x = c)

/-- Index of the last occurrence of `c` (`text.lastIndexOf`). -/
def lastIdxOf (c : Char) (cs : List Char) : Option Nat :=
  match (cs.reverse).findIdx? (fun x => x = c) with
  | none => none
  | some i => some (cs.length - 1 - i)

/-- `extractJsonFromText` (server.js lines 209-222): reject a falsy input,
try a strict parse, then parse the substring from the first `{` to the last
`}` if the latter comes strictly after the former; otherwise `null`. -/
def extractJsonFromText (text : String) : Option JsonValue :=
  if text.isEmpty then none
  else
    match jsonParse text with
    | some v => some v
    | none =>
      let cs := text.toList
      match firstIdxOf '{' cs, lastIdxOf '}' cs with
      | some f, some l =>
        if f < l then jsonParse (String.mk ((cs.drop f).take (l + 1 - f)))
        else none
      | _, _ => none

/-! ## Response normalization in `/api/analyze` (server.js lines 787-825) -/

/-- A backfill step `if (!parsed.k) parsed.k = v` (lines 805-807): assign when
the property is absent or falsy. -/
def backfillField (fs : List (String × JsonValue)) (k : String) (v : JsonValue) :
    List (String × JsonValue) :=
  match objGet fs k with
  | none => objSet fs k v
  | some w => if jsFalsy w then objSet fs k v else fs

/-- `Math.round` on a rational: round half toward positive infinity,
`⌊q + 1/2⌋`, computed on the exact rational as
`(2·num + den) fdiv (2·den)`. -/
def jsRound (q : ℚ) : ℤ := Int.fdiv (2 * q.num + q.den) (2 * q.den)

/-- Clamp to [0, 100] and round (lines 820-822). -/
def clampRound (q : ℚ) : ℤ :=
  let n := if q < 0 then 0 else q
  let n := if n > 100 then 100 else n
  jsRound n

/-- Lines 816-822 for a present, non-`null` score field, as a function of its
`Number()` conversion: `NaN` → the baseline (line 814 via the initial check);
non-finite → the baseline, then clamped and rounded; finite → clamped into
[0,100] and rounded. -/
def scoreOfNumber (n : JsNum) (base : Nat) : ℚ :=
  match n with
  | .nan => (base : ℚ)
  | .inf => ((clampRound (base : ℚ) : ℤ) : ℚ)
  | .negInf => ((clampRound (base : ℚ) : ℤ) : ℚ)
  | .fin q => ((clampRound q : ℤ) : ℚ)

/-- The normalized `atsScore` (lines 809-823): absent or `null` → the
heuristic baseline; otherwise by the `Number()` conversion. -/
def normalizeScoreValue (cur : Option JsonValue) (base : Nat) : ℚ :=
  match cur with
  | none => (base : ℚ)
  | some .null => (base : ℚ)
  | some v => scoreOfNumber (jsToNumber v) base

/-- Turn a string list into a JSON array of strings. -/
def jsonStrArr (l : List String) : JsonValue := .arr (l.map JsonValue.str)

/-- The field updates on a successfully parsed provider object
(server.js lines 805-823): backfill `keywords`, `skillsFound`, `topTokens`
from the deterministic profile when absent/falsy, then normalize `atsScore`
using `estimateAtsScoreFromText text kw` as the baseline. -/
def normalizeParsedJson (fs : List (String × JsonValue)) (text : String)
    (kw : KeywordProfile) : List (String × JsonValue) :=
  let fs := backfillField fs "keywords" (jsonStrArr kw.keywords)
  let fs := backfillField fs "skillsFound" (jsonStrArr kw.skillsFound)
  let fs := backfillField fs "topTokens" (jsonStrArr kw.topTokens)
  objSet fs "atsScore"
    (.num (normalizeScoreValue (objGet fs "atsScore") (estimateAtsScoreFromText text kw)))

/-- The response of `/api/analyze` after the provider call returned
(server.js lines 765-825). -/
inductive AnalyzeResponse where
  | httpError (status : Nat) (details : String)
  | degraded (details : String) (atsScore : Nat) (kw : KeywordProfile)
  | rawFallback (raw : String) (atsScore : Nat) (kw : KeywordProfile)
  | success (fields : List (String × JsonValue))
  | serverError

/-- Lines 765-825 of `/api/analyze`, from the returned `openaiResult`:
* `ok == false` and a truthy status other than 429 → HTTP 502 with the
  provider status and body (`httpError`);
* `ok == false` otherwise → HTTP 200 with an error annotation plus the
  keyword/heuristic analysis (`degraded`);
* `ok == true` → strict parse, then `extractJsonFromText`; a failed or falsy
  parse → HTTP 200 with the raw text plus the keyword/heuristic analysis
  (`rawFallback`); a parsed object → the normalized object (`success`).
  A truthy non-object parse would throw on property assignment (the module is
  strict-mode ESM) and reach the route's catch handler (`serverError`); no
  claim exercises that path. -/
def analyzeAfterCall (outcome : CallOutcome) (text : String) : AnalyzeResponse :=
  let kw := extractKeywords text
  if outcome.ok = false then
    if outcome.status ≠ 0 ∧ outcome.status ≠ 429 then
      .httpError 502 outcome.text
    else
      .degraded outcome.text (estimateAtsScoreFromText text kw) kw
  else
    match extractJsonFromText outcome.text with
    | none => .rawFallback outcome.text (estimateAtsScoreFromText text kw) kw
    | some v =>
      if jsFalsy v then .rawFallback outcome.text (estimateAtsScoreFromText text kw) kw
      else
        match v with
        | .obj fs => .success (normalizeParsedJson fs text kw)
        | _ => .serverError

/-! ## Text extraction dispatch of `/api/parse` (server.js lines 632-680) -/

/-- The outcome of an external document parser on given bytes: extracted text,
or a thrown error. -/
inductive ParserOutcome where
  | ok (text : String)
  | err (msg : String)

/-- A raw document as the routes see it: the declared MIME type and original
filename, plus what each external parser would do on its bytes
(`pdfParse`: `pdf-parse`; `docxParse`: `mammoth.extractRawText`;
`utf8Text`: `fs.readFileSync(path, "utf8")`, which cannot throw for an
existing file). -/
structure RawDocument where
  filename : String
  mimetype : String
  pdfParse : ParserOutcome
  docxParse : ParserOutcome
  utf8Text : String

/-- `safeParsePdfBuffer` (server.js lines 225-233): a parse failure is caught
and becomes the empty string. -/
def safeParsePdfBuffer : ParserOutcome → String
  | .ok t => t
  | .err _ => ""

/-- `a.endsWith(b)` on character lists. -/
def endsWithCL (s suffix : List Char) : Bool :=
  suffix == s.drop (s.length - suffix.length)

/-- `originalName.toLowerCase()` (ASCII model). -/
def lowerName (s : String) : List Char := s.toList.map asciiLower

/-- Does the document dispatch to the PDF branch (line 643)? -/
def isPdfDispatch (d : RawDocument) : Bool :=
  d.mimetype = "application/pdf" || endsWithCL (lowerName d.filename) ".pdf".toList

/-- Does the document dispatch to the DOCX branch (line 646)? -/
def isDocxDispatch (d : RawDocument) : Bool :=
  !isPdfDispatch d && endsWithCL (lowerName d.filename) ".docx".toList

/-- The extraction dispatch of `/api/parse` (lines 643-651). PDF parsing is
wrapped in `safeParsePdfBuffer` and cannot throw; the DOCX branch calls
`mammoth.extractRawText` with no local handler, so its exception propagates
(`Except.error`); the plain-text branch reads the file as UTF-8. -/
def dispatchExtract (d : RawDocument) : Except String String :=
  if isPdfDispatch d then .ok (safeParsePdfBuffer d.pdfParse)
  else if endsWithCL (lowerName d.filename) ".docx".toList then
    match d.docxParse with
    | .ok t => .ok t
    | .err m => .error m
  else .ok d.utf8Text

/-- The response of `/api/parse` for an uploaded document. -/
inductive ParseResponse where
  | noText (message : String)
  | parsed (text : String) (kw : KeywordProfile)
  | serverError (message : String)

/-- The diagnostic message for empty extractions (line 661). -/
def noTextMessage : String :=
  "No extractable text found. The file might be scanned or corrupted."

/-- `/api/parse` (lines 640-679): extract text; an exception reaches the
route's catch and becomes a 500 error response; empty or whitespace-only
text becomes a 200 response with `text:""` and a diagnostic message;
otherwise the text and its keyword profile are returned. -/
def parseRoute (d : RawDocument) : ParseResponse :=
  match dispatchExtract d with
  | .error m => .serverError m
  | .ok t =>
    if t.isEmpty ∨ (t.toList.dropWhile Char.isWhitespace).isEmpty then
      .noText noTextMessage
    else .parsed t (extractKeywords t)

/-! ## Claim theorems: the retrying client -/

/-- A provider that returns HTTP 500 with body "oops" on every call. -/
def provider500 : Nat → AttemptResult := fun _ => .response 500 "oops"

/-- A provider that returns HTTP 401 with body "Unauthorized" on every call. -/
def provider401 : Nat → AttemptResult := fun _ => .response 401 "Unauthorized"

/-! ## Claim theorems: text extraction -/

/-- A corrupted DOCX upload: `mammoth` throws. -/
def badDocx : RawDocument :=
  { filename := "resume.docx"
    mimetype := "application/vnd.openxmlformats-officedocument.wordprocessingml.document"
    pdfParse := .ok ""
    docxParse := .err "Corrupted zip: could not read entries"
    utf8Text := "" }

/-- A corrupted PDF upload: `pdf-parse` throws (and is caught). -/
def badPdf : RawDocument :=
  { filename := "scan.pdf"
    mimetype := "application/pdf"
    pdfParse := .err "Invalid PDF structure"
    docxParse := .ok ""
    utf8Text := "" }

/-- The malformed provider body of the JSON-extraction scenario. -/
def analyzeBody85 : String :=
  "Here you go: \x7b\"atsScore\":85,\"topSkills\":[\"x\"]\x7d thanks!"

/-- The object fields `JSON.parse` recovers from the substring of
`analyzeBody85` between the first `{` and the last `}`. -/
def fields85 : List (String × JsonValue) :=
  [("atsScore", .num 85), ("topSkills", .arr [.str "x"])]

/-! ## Lemmas about the keyword-extraction building blocks -/

/-- `extractKeywords` written out without `let` bindings. -/
theorem extractKeywords_eq (text : String) :
    extractKeywords text =
      { keywords := (dedupFirst
          ((sortCountDesc (skillScan (tokenizeForKeywords text) [])).map Prod.fst ++
           (pickTop (skillScan (tokenizeForKeywords text) [])
             (sortCountDesc (buildFreq (tokenizeForKeywords text))) 12).map Prod.fst)).take 30
        skillsFound := (sortCountDesc (skillScan (tokenizeForKeywords text) [])).map Prod.fst
        topTokens := ((pickTop (skillScan (tokenizeForKeywords text) [])
          (sortCountDesc (buildFreq (tokenizeForKeywords text))) 12).map Prod.fst).take 30 } :=
  rfl

theorem dedupFirstAux_sublist (l : List String) :
    ∀ seen, List.Sublist (dedupFirstAux seen l) l := by
  induction l with
  | nil => intro seen; simp [dedupFirstAux]
  | cons x xs ih =>
    intro seen
    simp only [dedupFirstAux]
    split
    · exact (ih seen).trans (List.sublist_cons_self x xs)
    · exact (ih (x :: seen)).cons₂ x

theorem dedupFirstAux_not_mem_seen (l : List String) :
    ∀ seen x, x ∈ dedupFirstAux seen l → x ∉ seen := by
  induction l with
  | nil => intro seen x hx; simp [dedupFirstAux] at hx
  | cons a xs ih =>
    intro seen x hx
    simp only [dedupFirstAux] at hx
    split at hx
    · exact ih seen x hx
    · rcases List.mem_cons.mp hx with rfl | hx
      · assumption
      · intro hxseen
        exact ih (a :: seen) x hx (List.mem_cons_of_mem a hxseen)

theorem dedupFirstAux_nodup (l : List String) :
    ∀ seen, (dedupFirstAux seen l).Nodup := by
  induction l with
  | nil => intro seen; simp [dedupFirstAux]
  | cons a xs ih =>
    intro seen
    simp only [dedupFirstAux]
    split
    · exact ih seen
    · refine List.nodup_cons.mpr ⟨?_, ih (a :: seen)⟩
      intro ha
      exact dedupFirstAux_not_mem_seen xs (a :: seen) a ha (List.mem_cons_self a seen)

/-- Deduplicating `s ++ t` when `s` has no duplicates and is disjoint from
`seen` keeps `s` intact and turns `t` into one of its sublists. -/
theorem dedupFirstAux_append (s : List String) :
    ∀ (t : List String) (seen : List String), s.Nodup → (∀ x ∈ s, x ∉ seen) →
      ∃ t', dedupFirstAux seen (s ++ t) = s ++ t' ∧ List.Sublist t' t := by
  induction s with
  | nil =>
    intro t seen _ _
    exact ⟨dedupFirstAux seen t, rfl, dedupFirstAux_sublist t seen⟩
  | cons a s ih =>
    intro t seen hnd hdisj
    have ha : a ∉ seen := hdisj a (List.mem_cons_self a s)
    have hnd' : s.Nodup := (List.nodup_cons.mp hnd).2
    have hdisj' : ∀ x ∈ s, x ∉ (a :: seen) := by
      intro x hx hmem
      rcases List.mem_cons.mp hmem with rfl | hmem
      · exact (List.nodup_cons.mp hnd).1 hx
      · exact hdisj x (List.mem_cons_of_mem a hx) hmem
    obtain ⟨t', ht', hsub⟩ := ih t (a :: seen) hnd' hdisj'
    refine ⟨t', ?_, hsub⟩
    simp only [List.cons_append, dedupFirstAux, if_neg ha]
    show a :: dedupFirstAux (a :: seen) (s ++ t) = a :: (s ++ t')
    rw [ht']

theorem insertDesc_perm (x : String × Nat) (l : List (String × Nat)) :
    List.Perm (insertDesc x l) (x :: l) := by
  induction l with
  | nil => simp [insertDesc]
  | cons y ys ih =>
    simp only [insertDesc]
    split
    · exact List.Perm.refl _
    · exact (ih.cons y).trans (List.Perm.swap x y ys)

theorem sortCountDesc_perm (l : List (String × Nat)) :
    List.Perm (sortCountDesc l) l := by
  induction l with
  | nil => simp [sortCountDesc]
  | cons x xs ih => exact (insertDesc_perm x (sortCountDesc xs)).trans (ih.cons x)

theorem insertDesc_sorted (x : String × Nat) (l : List (String × Nat))
    (h : l.Pairwise (fun a b => b.2 ≤ a.2)) :
    (insertDesc x l).Pairwise (fun a b => b.2 ≤ a.2) := by
  induction l with
  | nil => simp [insertDesc]
  | cons y ys ih =>
    simp only [insertDesc]
    rcases List.pairwise_cons.mp h with ⟨hy, hys⟩
    split
    · refine List.pairwise_cons.mpr ⟨?_, h⟩
      intro b hb
      rcases List.mem_cons.mp hb with rfl | hb
      · assumption
      · exact le_trans (hy b hb) (by assumption)
    · refine List.pairwise_cons.mpr ⟨?_, ih hys⟩
      intro b hb
      have hmem := (insertDesc_perm x ys).mem_iff.mp hb
      rcases List.mem_cons.mp hmem with rfl | hb'
      · omega
      · exact hy b hb'

theorem sortCountDesc_sorted (l : List (String × Nat)) :
    (sortCountDesc l).Pairwise (fun a b => b.2 ≤ a.2) := by
  induction l with
  | nil => simp [sortCountDesc]
  | cons x xs ih => exact insertDesc_sorted x (sortCountDesc xs) ih

theorem pickTop_sublist (found : List (String × Nat)) (l : List (String × Nat)) :
    ∀ need, List.Sublist (pickTop found l need) l := by
  induction l with
  | nil => intro need; simp [pickTop]
  | cons e rest ih =>
    intro need
    obtain ⟨t, c⟩ := e
    simp only [pickTop]
    split
    · exact (ih need).trans (List.sublist_cons_self _ _)
    · split
      · exact (ih need).trans (List.sublist_cons_self _ _)
      · split
        · exact (List.nil_sublist rest).cons₂ _
        · exact (ih (need - 1)).cons₂ _

theorem pickTop_length (found : List (String × Nat)) (l : List (String × Nat)) :
    ∀ need, 1 ≤ need → (pickTop found l need).length ≤ need := by
  induction l with
  | nil => intro need _; simp [pickTop]
  | cons e rest ih =>
    intro need hneed
    obtain ⟨t, c⟩ := e
    simp only [pickTop]
    split
    · exact ih need hneed
    · split
      · exact ih need hneed
      · split
        · simpa
        · have h1 : (pickTop found rest (need - 1)).length ≤ need - 1 := by
            apply ih; omega
          simp only [List.length_cons]
          omega

theorem pickTop_mem (found : List (String × Nat)) (l : List (String × Nat)) :
    ∀ need e, e ∈ pickTop found l need →
      hasKey found e.1 = false ∧ 2 < e.1.length := by
  induction l with
  | nil => intro need e he; simp [pickTop] at he
  | cons x rest ih =>
    intro need e he
    obtain ⟨t, c⟩ := x
    simp only [pickTop] at he
    split at he
    · exact ih need e he
    · split at he
      · exact ih need e he
      · split at he
        · rcases List.mem_singleton.mp he with rfl
          exact ⟨by simp_all, by show 2 < t.length; omega⟩
        · rcases List.mem_cons.mp he with rfl | he'
          · exact ⟨by simp_all, by show 2 < t.length; omega⟩
          · exact ih (need - 1) e he'

theorem mem_keys_bump (m : List (String × Nat)) (k x : String) :
    x ∈ (bump m k).map Prod.fst → x ∈ m.map Prod.fst ∨ x = k := by
  induction m with
  | nil => intro h; simp [bump] at h; simp [h]
  | cons e rest ih =>
    intro h
    obtain ⟨a, n⟩ := e
    simp only [bump] at h
    split at h
    · simp_all
    · simp only [List.map_cons, List.mem_cons] at h ⊢
      rcases h with rfl | h
      · left; left; rfl
      · rcases ih h with h' | h'
        · left; right; exact h'
        · right; exact h'

theorem bump_keys_nodup (m : List (String × Nat)) (k : String)
    (h : (m.map Prod.fst).Nodup) : ((bump m k).map Prod.fst).Nodup := by
  induction m with
  | nil => simp [bump]
  | cons e rest ih =>
    obtain ⟨a, n⟩ := e
    simp only [bump]
    split
    · simpa using h
    · simp only [List.map_cons, List.nodup_cons] at h ⊢
      refine ⟨?_, ih h.2⟩
      intro hmem
      rcases mem_keys_bump rest k a hmem with h' | h'
      · exact h.1 h'
      · simp_all

theorem foldl_keys_nodup (step : List (String × Nat) → String → List (String × Nat))
    (hstep : ∀ m p, (m.map Prod.fst).Nodup → ((step m p).map Prod.fst).Nodup)
    (ps : List String) :
    ∀ m, (m.map Prod.fst).Nodup → ((ps.foldl step m).map Prod.fst).Nodup := by
  induction ps with
  | nil => intro m hm; simpa using hm
  | cons p ps ih => intro m hm; exact ih (step m p) (hstep m p hm)

theorem skillScan_keys_nodup (tokens : List String) :
    ∀ m, (m.map Prod.fst).Nodup → ((skillScan tokens m).map Prod.fst).Nodup := by
  induction tokens with
  | nil => intro m hm; simpa [skillScan] using hm
  | cons t rest ih =>
    intro m hm
    simp only [skillScan]
    apply ih
    apply foldl_keys_nodup
    · intro m' p hm'
      split
      · exact hm'
      · split
        · exact bump_keys_nodup m' p hm'
        · exact hm'
    · exact hm

theorem skillList_nodup (tokens : List String) :
    List.Nodup ((sortCountDesc (skillScan tokens [])).map Prod.fst) := by
  have hperm : List.Perm ((sortCountDesc (skillScan tokens [])).map Prod.fst)
      ((skillScan tokens []).map Prod.fst) :=
    (sortCountDesc_perm (skillScan tokens [])).map Prod.fst
  exact hperm.nodup_iff.mpr (skillScan_keys_nodup tokens [] (by simp))

/-- C3 counterexample: on the scenario text (AI mode disabled), `skillsFound`
does not simultaneously include "react", "node.js" and "aws" — the token
"node.js" never survives tokenization, since `.` is stripped. -/
theorem scenario_skillsFound_claim_false :
    ¬ ("react" ∈ (extractKeywords scenarioText).skillsFound ∧
       "node.js" ∈ (extractKeywords scenarioText).skillsFound ∧
       "aws" ∈ (extractKeywords scenarioText).skillsFound) := by
  decide

/-- C3 amended: on the scenario text, `skillsFound = ["react", "node", "aws"]`:
"react" and "aws" are found, and the occurrence of "Node.js" is matched as the
single-token skill "node" because tokenization replaces `.` with a space. -/
theorem scenario_skillsFound_actual :
    (extractKeywords scenarioText).skillsFound = ["react", "node", "aws"] := by
  decide

/-- C4 counterexample: tokens inside a matched multi-word skill phrase are not
excluded from `topTokens` — "machine learning" is matched as a skill, yet the
inner token "machine" still appears among the top frequent tokens. -/
theorem topTokens_keeps_inner_phrase_tokens :
    "machine learning" ∈ (extractKeywords mlText).skillsFound ∧
    "machine" ∈ (extractKeywords mlText).topTokens := by
  decide

/-- C4 amended: `topTokens` consists of at most 12 tokens of length > 2 ranked
by frequency descending, excluding every token that is itself a key of the
matched-skill map (an exact matched phrase); tokens that merely occur inside a
matched multi-word phrase are not excluded. -/
theorem topTokens_spec (text : String) :
    (extractKeywords text).topTokens =
      (pickTop (skillScan (tokenizeForKeywords text) [])
        (sortCountDesc (buildFreq (tokenizeForKeywords text))) 12).map Prod.fst ∧
    (extractKeywords text).topTokens.length ≤ 12 ∧
    (∀ tok ∈ (extractKeywords text).topTokens,
      2 < tok.length ∧ hasKey (skillScan (tokenizeForKeywords text) []) tok = false) ∧
    (pickTop (skillScan (tokenizeForKeywords text) [])
        (sortCountDesc (buildFreq (tokenizeForKeywords text))) 12).Pairwise
      (fun a b => b.2 ≤ a.2) := by
  have hlen : (pickTop (skillScan (tokenizeForKeywords text) [])
      (sortCountDesc (buildFreq (tokenizeForKeywords text))) 12).length ≤ 12 :=
    pickTop_length _ _ 12 (by omega)
  have htake : ((pickTop (skillScan (tokenizeForKeywords text) [])
        (sortCountDesc (buildFreq (tokenizeForKeywords text))) 12).map Prod.fst).take 30 =
      (pickTop (skillScan (tokenizeForKeywords text) [])
        (sortCountDesc (buildFreq (tokenizeForKeywords text))) 12).map Prod.fst := by
    apply List.take_of_length_le
    simpa using le_trans hlen (by omega)
  rw [extractKeywords_eq]
  refine ⟨htake, ?_, ?_, ?_⟩
  · rw [htake]
    simpa using hlen
  · intro tok htok
    rw [htake] at htok
    obtain ⟨e, he, rfl⟩ := List.mem_map.mp htok
    have hmem := pickTop_mem _ _ 12 e he
    exact ⟨hmem.2, hmem.1⟩
  · exact List.Pairwise.sublist (pickTop_sublist _ _ 12)
      (sortCountDesc_sorted (buildFreq (tokenizeForKeywords text)))

/-- C5: the heuristic ATS score equals 40 plus the two word-count bonuses and
three keyword-count bonuses, clamped to [30, 95], and always lies in
[30, 95]. -/
theorem estimateAtsScore_formula_bounds (text : String) (kw : KeywordProfile) :
    estimateAtsScoreFromText text kw =
      min 95 (max 30
        (40 + (if wordCount text > 150 then 10 else 0)
            + (if wordCount text > 300 then 10 else 0)
            + (if kw.keywords.length > 5 then 10 else 0)
            + (if kw.keywords.length > 10 then 10 else 0)
            + (if kw.keywords.length > 15 then 10 else 0))) ∧
    30 ≤ estimateAtsScoreFromText text kw ∧ estimateAtsScoreFromText text kw ≤ 95 := by
  have h : ∀ L K : Nat,
      scoreFromCounts L K =
        min 95 (max 30
          (40 + (if L > 150 then 10 else 0) + (if L > 300 then 10 else 0)
              + (if K > 5 then 10 else 0) + (if K > 10 then 10 else 0)
              + (if K > 15 then 10 else 0))) ∧
      30 ≤ scoreFromCounts L K ∧ scoreFromCounts L K ≤ 95 := by
    intro L K
    by_cases h1 : 150 < L <;> by_cases h2 : 300 < L <;> by_cases h3 : 5 < K <;>
      by_cases h4 : 10 < K <;> by_cases h5 : 15 < K <;>
      simp [scoreFromCounts, h1, h2, h3, h4, h5]
  exact h (wordCount text) kw.keywords.length

/-- C10: the heuristic score actually lies in the tighter range [40, 90]: the
base 40 plus at most five +10 bonuses caps at 90, so neither the lower clamp
to 30 nor the upper clamp to 95 is ever reached. -/
theorem estimateAtsScore_tight_bounds (text : String) (kw : KeywordProfile) :
    40 ≤ estimateAtsScoreFromText text kw ∧ estimateAtsScoreFromText text kw ≤ 90 := by
  have h : ∀ L K : Nat, 40 ≤ scoreFromCounts L K ∧ scoreFromCounts L K ≤ 90 := by
    intro L K
    by_cases h1 : 150 < L <;> by_cases h2 : 300 < L <;> by_cases h3 : 5 < K <;>
      by_cases h4 : 10 < K <;> by_cases h5 : 15 < K <;>
      simp [scoreFromCounts, h1, h2, h3, h4, h5]
  exact h (wordCount text) kw.keywords.length

/-- C6: `keywords` has no duplicates, has length at most 30, and is the
truncation to 30 of the skill matches followed by a (deduplicated) sublist of
the top frequent tokens, preserving first-seen order. -/
theorem keywords_nodup_bounded (text : String) :
    (extractKeywords text).keywords.Nodup ∧
    (extractKeywords text).keywords.length ≤ 30 ∧
    ∃ t', List.Sublist t' (extractKeywords text).topTokens ∧
      (extractKeywords text).keywords =
        ((extractKeywords text).skillsFound ++ t').take 30 := by
  rw [extractKeywords_eq]
  refine ⟨?_, ?_, ?_⟩
  · exact List.Nodup.sublist (List.take_sublist 30 _) (dedupFirstAux_nodup _ [])
  · exact List.length_take_le 30 _
  · obtain ⟨t', ht', hsub⟩ :=
      dedupFirstAux_append
        ((sortCountDesc (skillScan (tokenizeForKeywords text) [])).map Prod.fst)
        ((pickTop (skillScan (tokenizeForKeywords text) [])
            (sortCountDesc (buildFreq (tokenizeForKeywords text))) 12).map Prod.fst)
        [] (skillList_nodup (tokenizeForKeywords text)) (by simp)
    have hlen : (pickTop (skillScan (tokenizeForKeywords text) [])
        (sortCountDesc (buildFreq (tokenizeForKeywords text))) 12).length ≤ 12 :=
      pickTop_length _ _ 12 (by omega)
    have htake : ((pickTop (skillScan (tokenizeForKeywords text) [])
          (sortCountDesc (buildFreq (tokenizeForKeywords text))) 12).map Prod.fst).take 30 =
        (pickTop (skillScan (tokenizeForKeywords text) [])
          (sortCountDesc (buildFreq (tokenizeForKeywords text))) 12).map Prod.fst := by
      apply List.take_of_length_le
      simpa using le_trans hlen (by omega)
    refine ⟨t', ?_, ?_⟩
    · rw [htake]
      exact hsub
    · simp only [dedupFirst, ht']

/-! ## Lemmas about the retry loop -/

/-- If every attempt in the window fails retryably, the loop exhausts its fuel
and returns the hardcoded 429 outcome carrying the last diagnostic. -/
theorem callLoop_all_retryFail (provider : Nat → AttemptResult) :
    ∀ (fuel : Nat), 1 ≤ fuel → ∀ (i : Nat) (lastErr : Option String),
      (∀ j, i ≤ j → j < i + fuel → retryFail (provider j) = true) →
      callLoop provider fuel i lastErr =
        { ok := false, text := attemptErrText (provider (i + fuel - 1)), status := 429,
          attemptsMade := i + fuel } := by
  intro fuel
  induction fuel with
  | zero => intro h; omega
  | succ f ih =>
    intro _ i lastErr hall
    have hi : retryFail (provider i) = true := hall i (le_refl i) (by omega)
    simp only [callLoop]
    cases hp : provider i with
    | response s b =>
      rw [hp] at hi
      simp only [retryFail, Bool.and_eq_true, Bool.not_eq_true'] at hi
      dsimp only
      rw [hi.1, hi.2]
      simp only [Bool.false_eq_true, if_false, Bool.not_true]
      rcases Nat.eq_zero_or_pos f with rfl | hf
      · simp only [callLoop, Option.getD_some]
        rw [show i + 1 - 1 = i from by omega, hp]
      · have ih' := ih hf (i + 1) (some (attemptErrText (AttemptResult.response s b)))
          (by intro j hj1 hj2; exact hall j (by omega) (by omega))
        rw [ih']
        have h1 : i + 1 + f - 1 = i + (f + 1) - 1 := by omega
        have h2 : i + 1 + f = i + (f + 1) := by omega
        rw [h1, h2]
    | exception m =>
      dsimp only
      rcases Nat.eq_zero_or_pos f with rfl | hf
      · simp only [callLoop, Option.getD_some]
        rw [show i + 1 - 1 = i from by omega, hp]
        rfl
      · have ih' := ih hf (i + 1) (some m)
          (by intro j hj1 hj2; exact hall j (by omega) (by omega))
        rw [ih']
        have h1 : i + 1 + f - 1 = i + (f + 1) - 1 := by omega
        have h2 : i + 1 + f = i + (f + 1) := by omega
        rw [h1, h2]

/-- If the first `k` attempts fail retryably and attempt `k` (zero-based)
returns a non-2xx, non-retryable status, the loop returns that response at
once, having made `k + 1` calls. -/
theorem callLoop_terminal (provider : Nat → AttemptResult) :
    ∀ (k fuel i : Nat) (lastErr : Option String) (s : Nat) (b : String),
      k < fuel →
      (∀ j, j < k → retryFail (provider (i + j)) = true) →
      provider (i + k) = .response s b →
      respOk s = false → retryableStatus s = false →
      callLoop provider fuel i lastErr =
        { ok := false, text := b, status := s, attemptsMade := i + k + 1 } := by
  intro k
  induction k with
  | zero =>
    intro fuel i lastErr s b hk _ hp hro hrs
    cases fuel with
    | zero => omega
    | succ f =>
      simp only [callLoop]
      rw [show i + 0 = i from rfl] at hp
      rw [hp]
      dsimp only
      rw [hro, hrs]
      simp
  | succ k ih =>
    intro fuel i lastErr s b hk hprev hp hro hrs
    cases fuel with
    | zero => omega
    | succ f =>
      simp only [callLoop]
      have h0 : retryFail (provider i) = true := by
        have := hprev 0 (by omega)
        rwa [show i + 0 = i from rfl] at this
      cases hp0 : provider i with
      | response s0 b0 =>
        rw [hp0] at h0
        simp only [retryFail, Bool.and_eq_true, Bool.not_eq_true'] at h0
        dsimp only
        rw [h0.1, h0.2]
        simp only [Bool.false_eq_true, if_false, Bool.not_true]
        have ih' := ih f (i + 1) (some (attemptErrText (AttemptResult.response s0 b0))) s b
          (by omega)
          (by intro j hj
              have := hprev (j + 1) (by omega)
              rwa [show i + (j + 1) = i + 1 + j from by omega] at this)
          (by rwa [show i + 1 + k = i + (k + 1) from by omega])
          hro hrs
        rw [ih']
        have h2 : i + 1 + k + 1 = i + (k + 1) + 1 := by omega
        rw [h2]
      | exception m =>
        dsimp only
        have ih' := ih f (i + 1) (some m) s b
          (by omega)
          (by intro j hj
              have := hprev (j + 1) (by omega)
              rwa [show i + (j + 1) = i + 1 + j from by omega] at this)
          (by rwa [show i + 1 + k = i + (k + 1) from by omega])
          hro hrs
        rw [ih']
        have h2 : i + 1 + k + 1 = i + (k + 1) + 1 := by omega
        rw [h2]

/-- C1 counterexample: with a provider that returns 500/"oops" on every call
and `maxAttempts = 5`, the exhausted outcome's status is the literal 429 —
not the last observed status 500 — and its body is the diagnostic string
`status=500 body=oops`, not the last observed body. -/
theorem retries_exhausted_not_last_status :
    (callOpenAIWithRetries provider500 5).status = 429 ∧
    (callOpenAIWithRetries provider500 5).status ≠ 500 ∧
    (callOpenAIWithRetries provider500 5).text = "status=500 body=oops" ∧
    (callOpenAIWithRetries provider500 5).text ≠ "oops" := by
  refine ⟨rfl, by decide, rfl, by decide⟩

/-- C1 amended: when every attempt fails with a retryable classification, the
client stops after exactly `maxAttempts` fetch calls and returns
`ok = false`, `attemptsMade = maxAttempts`, the hardcoded status 429, and a
diagnostic text embedding the last observed status/body
(`status=<s> body=<b>`, or the exception message); the analyze route then
still produces the degraded HTTP-200 response built from the keyword profile
and heuristic score (no exception is thrown: every branch yields a normal
response value). -/
theorem retries_exhausted_degraded (provider : Nat → AttemptResult)
    (attempts : Nat) (text : String)
    (h1 : 1 ≤ attempts)
    (hall : ∀ j, j < attempts → retryFail (provider j) = true) :
    callOpenAIWithRetries provider attempts =
      { ok := false, text := attemptErrText (provider (attempts - 1)), status := 429,
        attemptsMade := attempts } ∧
    analyzeAfterCall (callOpenAIWithRetries provider attempts) text =
      .degraded (attemptErrText (provider (attempts - 1)))
        (estimateAtsScoreFromText text (extractKeywords text)) (extractKeywords text) := by
  have hmain : callOpenAIWithRetries provider attempts =
      { ok := false, text := attemptErrText (provider (attempts - 1)), status := 429,
        attemptsMade := attempts } := by
    have h := callLoop_all_retryFail provider attempts h1 0 none
      (by intro j hj1 hj2; exact hall j (by omega))
    simpa using h
  refine ⟨hmain, ?_⟩
  rw [hmain]
  simp [analyzeAfterCall]

/-- C1 witness: the amended behaviour at the concrete always-500 provider
with 5 attempts. -/
theorem retries_exhausted_degraded_witness :
    callOpenAIWithRetries provider500 5 =
      { ok := false, text := attemptErrText (provider500 4), status := 429,
        attemptsMade := 5 } ∧
    analyzeAfterCall (callOpenAIWithRetries provider500 5) "sample resume text" =
      .degraded (attemptErrText (provider500 4))
        (estimateAtsScoreFromText "sample resume text" (extractKeywords "sample resume text"))
        (extractKeywords "sample resume text") :=
  retries_exhausted_degraded provider500 5 "sample resume text" (by omega)
    (fun _ _ => rfl)

/-- C7: if the first `k` attempts fail retryably and attempt `k` returns a
status that is neither 2xx nor 429 nor in [500, 599], the client returns
immediately with `ok = false`, that status and body, and
`attemptsMade = k + 1` — no further attempts. -/
theorem terminal_status_no_retry (provider : Nat → AttemptResult)
    (attempts k s : Nat) (b : String)
    (hk : k < attempts)
    (hprev : ∀ j, j < k → retryFail (provider j) = true)
    (hp : provider k = .response s b)
    (h2xx : ¬ (200 ≤ s ∧ s ≤ 299)) (h429 : s ≠ 429) (h5xx : ¬ (500 ≤ s ∧ s < 600)) :
    callOpenAIWithRetries provider attempts =
      { ok := false, text := b, status := s, attemptsMade := k + 1 } := by
  have hro : respOk s = false := by
    simp only [respOk, Bool.and_eq_false_iff, decide_eq_false_iff_not]
    omega
  have hrs : retryableStatus s = false := by
    simp only [retryableStatus, Bool.or_eq_false_iff, Bool.and_eq_false_iff,
      beq_eq_false_iff_ne, ne_eq, decide_eq_false_iff_not]
    omega
  have h := callLoop_terminal provider k attempts 0 none s b hk
    (by intro j hj; simpa using hprev j hj)
    (by simpa using hp) hro hrs
  simpa using h

/-- C7 witness: a provider returning 401 on the first call yields
`attemptsMade = 1` with status 401. -/
theorem terminal_status_no_retry_witness :
    callOpenAIWithRetries provider401 5 =
      { ok := false, text := "Unauthorized", status := 401, attemptsMade := 1 } :=
  terminal_status_no_retry provider401 5 0 401 "Unauthorized" (by omega)
    (by intro j hj; omega) rfl (by decide) (by decide) (by decide)

/-- C2 counterexample: extraction does not catch every parser failure — for a
corrupted DOCX the `mammoth` exception propagates out of the extraction step,
and the parse route answers with a 500 error response instead of an
empty-text result with a diagnostic. -/
theorem docx_failure_propagates :
    dispatchExtract badDocx = Except.error "Corrupted zip: could not read entries" ∧
    parseRoute badDocx = .serverError "Corrupted zip: could not read entries" :=
  ⟨rfl, rfl⟩

/-- C2 amended: only the PDF parser is guarded locally. A document dispatched
to the PDF branch never raises (a parser failure becomes empty text, which the
route reports as a diagnostic "no extractable text" response); a document
dispatched to the plain-text branch never raises; but a DOCX parser failure
propagates to the route's catch handler and becomes a 500 error response. -/
theorem extraction_exception_policy (d : RawDocument) (m : String) :
    (isPdfDispatch d = true → dispatchExtract d = .ok (safeParsePdfBuffer d.pdfParse)) ∧
    (isPdfDispatch d = true → d.pdfParse = .err m → parseRoute d = .noText noTextMessage) ∧
    (isPdfDispatch d = false → isDocxDispatch d = false →
      dispatchExtract d = .ok d.utf8Text) ∧
    (isDocxDispatch d = true → d.docxParse = .err m → parseRoute d = .serverError m) := by
  refine ⟨?_, ?_, ?_, ?_⟩
  · intro hpdf
    simp [dispatchExtract, hpdf]
  · intro hpdf herr
    simp [parseRoute, dispatchExtract, hpdf, herr, safeParsePdfBuffer]
  · intro hpdf hdocx
    simp only [isDocxDispatch, hpdf, Bool.not_false, Bool.true_and] at hdocx
    simp at hdocx
    simp [dispatchExtract, hpdf, hdocx]
  · intro hdocx herr
    simp only [isDocxDispatch, Bool.and_eq_true, Bool.not_eq_true'] at hdocx
    obtain ⟨hdocx1, hdocx2⟩ := hdocx
    simp at hdocx2
    simp [parseRoute, dispatchExtract, hdocx1, hdocx2, herr]

/-- C2 witness: the amended behaviour at the corrupted PDF and the corrupted
DOCX. -/
theorem extraction_exception_policy_witness :
    ((isPdfDispatch badPdf = true →
        dispatchExtract badPdf = .ok (safeParsePdfBuffer badPdf.pdfParse)) ∧
     (isPdfDispatch badPdf = true → badPdf.pdfParse = .err "Invalid PDF structure" →
        parseRoute badPdf = .noText noTextMessage) ∧
     (isPdfDispatch badPdf = false → isDocxDispatch badPdf = false →
        dispatchExtract badPdf = .ok badPdf.utf8Text) ∧
     (isDocxDispatch badPdf = true → badPdf.docxParse = .err "Invalid PDF structure" →
        parseRoute badPdf = .serverError "Invalid PDF structure")) ∧
    ((isPdfDispatch badDocx = true →
        dispatchExtract badDocx = .ok (safeParsePdfBuffer badDocx.pdfParse)) ∧
     (isPdfDispatch badDocx = true →
        badDocx.pdfParse = .err "Corrupted zip: could not read entries" →
        parseRoute badDocx = .noText noTextMessage) ∧
     (isPdfDispatch badDocx = false → isDocxDispatch badDocx = false →
        dispatchExtract badDocx = .ok badDocx.utf8Text) ∧
     (isDocxDispatch badDocx = true →
        badDocx.docxParse = .err "Corrupted zip: could not read entries" →
        parseRoute badDocx = .serverError "Corrupted zip: could not read entries")) :=
  ⟨extraction_exception_policy badPdf "Invalid PDF structure",
   extraction_exception_policy badDocx "Corrupted zip: could not read entries"⟩

/-! ## Lemmas about object field access -/

theorem objGet_objSet_self (fs : List (String × JsonValue)) (k : String) (v : JsonValue) :
    objGet (objSet fs k v) k = some v := by
  induction fs with
  | nil => simp [objSet, objGet]
  | cons e rest ih =>
    obtain ⟨a, w⟩ := e
    simp only [objSet]
    split
    · simp only [objGet]
      rw [if_pos (by assumption)]
    · simp only [objGet]
      rw [if_neg (by assumption)]
      exact ih

theorem objGet_objSet_ne (fs : List (String × JsonValue)) (k k' : String) (v : JsonValue)
    (h : k' ≠ k) : objGet (objSet fs k v) k' = objGet fs k' := by
  induction fs with
  | nil =>
    simp only [objSet, objGet]
    rw [if_neg (fun hh => h hh.symm)]
  | cons e rest ih =>
    obtain ⟨a, w⟩ := e
    simp only [objSet]
    split
    · rename_i hak
      subst hak
      simp only [objGet]
      rw [if_neg (fun hh => h hh.symm), if_neg (fun hh => h hh.symm)]
    · simp only [objGet]
      split
      · rfl
      · exact ih

theorem objGet_backfill_ne (fs : List (String × JsonValue)) (k k' : String) (v : JsonValue)
    (h : k' ≠ k) : objGet (backfillField fs k v) k' = objGet fs k' := by
  unfold backfillField
  cases objGet fs k with
  | none => exact objGet_objSet_ne fs k k' v h
  | some w =>
    dsimp only
    split
    · exact objGet_objSet_ne fs k k' v h
    · rfl

theorem objGet_backfill_absent (fs : List (String × JsonValue)) (k : String) (v : JsonValue)
    (h : objGet fs k = none) : objGet (backfillField fs k v) k = some v := by
  unfold backfillField
  rw [h]
  exact objGet_objSet_self fs k v

/-- The heuristic score never exceeds 100 (shared helper). -/
theorem estimate_le_100 (text : String) (kw : KeywordProfile) :
    estimateAtsScoreFromText text kw ≤ 100 := by
  have h : ∀ L K : Nat, scoreFromCounts L K ≤ 100 := by
    intro L K
    by_cases h1 : 150 < L <;> by_cases h2 : 300 < L <;> by_cases h3 : 5 < K <;>
      by_cases h4 : 10 < K <;> by_cases h5 : 15 < K <;>
      simp [scoreFromCounts, h1, h2, h3, h4, h5]
  exact h (wordCount text) kw.keywords.length

/-- Clamping and rounding an integer base in [0, 100] is the identity. -/
theorem clampRound_natCast (n : Nat) (h : n ≤ 100) : clampRound (n : ℚ) = n := by
  have h0 : ¬ ((n : ℚ) < 0) := by
    rw [not_lt]
    exact Nat.cast_nonneg n
  have h1 : ¬ ((n : ℚ) > 100) := by
    rw [gt_iff_lt, not_lt]
    exact_mod_cast h
  simp only [clampRound, jsRound, h0, h1, if_false]
  rw [Rat.num_natCast, Rat.den_natCast]
  push_cast
  rw [Int.fdiv_eq_ediv _ (by omega)]
  omega

/-- For a non-`null` value the score normalization is determined by the
`Number()` conversion. -/
theorem normalizeScoreValue_some (v : JsonValue) (base : Nat) (hnull : v ≠ .null) :
    normalizeScoreValue (some v) base = scoreOfNumber (jsToNumber v) base := by
  cases v with
  | null => exact absurd rfl hnull
  | bool b => rfl
  | num q => rfl
  | str s => rfl
  | arr a => rfl
  | obj o => rfl

/-! ## Claim theorems: response normalization -/

/-- C8: after a successful parse of the provider response, omitted `keywords`,
`skillsFound` and `topTokens` are backfilled from the deterministic profile;
for `atsScore`, an absent, `null`, or non-numeric value is replaced by the
heuristic baseline, a non-finite value falls back to the baseline as well, and
a finite numeric value is clamped into [0,100] and rounded — in particular a
provider `atsScore` of 150 normalizes to 100, and `"N/A"` falls back to the
baseline. -/
theorem normalize_backfill_and_clamp (fs : List (String × JsonValue)) (text : String) :
    (objGet fs "keywords" = none →
      objGet (normalizeParsedJson fs text (extractKeywords text)) "keywords" =
        some (jsonStrArr (extractKeywords text).keywords)) ∧
    (objGet fs "skillsFound" = none →
      objGet (normalizeParsedJson fs text (extractKeywords text)) "skillsFound" =
        some (jsonStrArr (extractKeywords text).skillsFound)) ∧
    (objGet fs "topTokens" = none →
      objGet (normalizeParsedJson fs text (extractKeywords text)) "topTokens" =
        some (jsonStrArr (extractKeywords text).topTokens)) ∧
    (objGet fs "atsScore" = none →
      objGet (normalizeParsedJson fs text (extractKeywords text)) "atsScore" =
        some (.num (estimateAtsScoreFromText text (extractKeywords text)))) ∧
    (objGet fs "atsScore" = some .null →
      objGet (normalizeParsedJson fs text (extractKeywords text)) "atsScore" =
        some (.num (estimateAtsScoreFromText text (extractKeywords text)))) ∧
    (∀ v, objGet fs "atsScore" = some v → v ≠ .null → jsToNumber v = .nan →
      objGet (normalizeParsedJson fs text (extractKeywords text)) "atsScore" =
        some (.num (estimateAtsScoreFromText text (extractKeywords text)))) ∧
    (∀ v, objGet fs "atsScore" = some v → v ≠ .null →
      (jsToNumber v = .inf ∨ jsToNumber v = .negInf) →
      objGet (normalizeParsedJson fs text (extractKeywords text)) "atsScore" =
        some (.num (estimateAtsScoreFromText text (extractKeywords text)))) ∧
    (∀ v q, objGet fs "atsScore" = some v → v ≠ .null → jsToNumber v = .fin q →
      objGet (normalizeParsedJson fs text (extractKeywords text)) "atsScore" =
        some (.num ((clampRound q : ℤ) : ℚ))) ∧
    (objGet fs "atsScore" = some (.num 150) →
      objGet (normalizeParsedJson fs text (extractKeywords text)) "atsScore" =
        some (.num 100)) ∧
    (objGet fs "atsScore" = some (.str "N/A") →
      objGet (normalizeParsedJson fs text (extractKeywords text)) "atsScore" =
        some (.num (estimateAtsScoreFromText text (extractKeywords text)))) := by
  have hats : ∀ w : Option JsonValue, objGet fs "atsScore" = w →
      objGet (normalizeParsedJson fs text (extractKeywords text)) "atsScore" =
        some (.num (normalizeScoreValue w (estimateAtsScoreFromText text (extractKeywords text)))) := by
    intro w hw
    simp only [normalizeParsedJson]
    rw [objGet_objSet_self]
    rw [objGet_backfill_ne _ "topTokens" "atsScore" _ (by decide),
        objGet_backfill_ne _ "skillsFound" "atsScore" _ (by decide),
        objGet_backfill_ne _ "keywords" "atsScore" _ (by decide), hw]
  refine ⟨?_, ?_, ?_, ?_, ?_, ?_, ?_, ?_, ?_, ?_⟩
  · intro h
    simp only [normalizeParsedJson]
    rw [objGet_objSet_ne _ "atsScore" "keywords" _ (by decide),
        objGet_backfill_ne _ "topTokens" "keywords" _ (by decide),
        objGet_backfill_ne _ "skillsFound" "keywords" _ (by decide)]
    exact objGet_backfill_absent _ _ _ h
  · intro h
    simp only [normalizeParsedJson]
    rw [objGet_objSet_ne _ "atsScore" "skillsFound" _ (by decide),
        objGet_backfill_ne _ "topTokens" "skillsFound" _ (by decide)]
    apply objGet_backfill_absent
    rw [objGet_backfill_ne _ "keywords" "skillsFound" _ (by decide)]
    exact h
  · intro h
    simp only [normalizeParsedJson]
    rw [objGet_objSet_ne _ "atsScore" "topTokens" _ (by decide)]
    apply objGet_backfill_absent
    rw [objGet_backfill_ne _ "skillsFound" "topTokens" _ (by decide),
        objGet_backfill_ne _ "keywords" "topTokens" _ (by decide)]
    exact h
  · intro h
    rw [hats none h]
    rfl
  · intro h
    rw [hats _ h]
    rfl
  · intro v h hnull hnan
    rw [hats _ h, normalizeScoreValue_some v _ hnull, hnan]
    rfl
  · intro v h hnull hinf
    rw [hats _ h, normalizeScoreValue_some v _ hnull]
    rcases hinf with hinf | hinf <;> rw [hinf] <;>
      simp only [scoreOfNumber,
        clampRound_natCast _ (estimate_le_100 text (extractKeywords text)), Int.cast_natCast]
  · intro v q h hnull hfin
    rw [hats _ h, normalizeScoreValue_some v _ hnull, hfin]
    rfl
  · intro h
    rw [hats _ h, normalizeScoreValue_some _ _ (fun hh => JsonValue.noConfusion hh)]
    have h100 : scoreOfNumber (jsToNumber (.num 150))
        (estimateAtsScoreFromText text (extractKeywords text)) = 100 := by
      show ((clampRound 150 : ℤ) : ℚ) = 100
      decide
    rw [h100]
  · intro h
    rw [hats _ h, normalizeScoreValue_some _ _ (fun hh => JsonValue.noConfusion hh)]
    have hnan : jsToNumber (JsonValue.str "N/A") = .nan := by decide
    rw [hnan]
    rfl

/-- C9: on an `ok` outcome whose body is not strict JSON, the substring from
the first `{` to the last `}` is extracted and parsed — on the scenario body
this recovers `atsScore = 85` and `topSkills = ["x"]`, and the normalized
success response keeps both; when that extraction also fails, the analyze
route returns the keyword/heuristic-only result annotated with the raw
provider text. -/
theorem json_extraction_robustness (body text : String) (s a : Nat)
    (hfail : extractJsonFromText body = none) :
    extractJsonFromText analyzeBody85 = some (.obj fields85) ∧
    (∃ fs, analyzeAfterCall
        { ok := true, text := analyzeBody85, status := s, attemptsMade := a } text =
          .success fs ∧
      objGet fs "atsScore" = some (.num 85) ∧
      objGet fs "topSkills" = some (.arr [.str "x"])) ∧
    analyzeAfterCall { ok := true, text := body, status := s, attemptsMade := a } text =
      .rawFallback body (estimateAtsScoreFromText text (extractKeywords text))
        (extractKeywords text) := by
  refine ⟨rfl, ⟨normalizeParsedJson fields85 text (extractKeywords text), rfl, ?_, ?_⟩, ?_⟩
  · simp only [normalizeParsedJson]
    rw [objGet_objSet_self,
        objGet_backfill_ne _ "topTokens" "atsScore" _ (by decide),
        objGet_backfill_ne _ "skillsFound" "atsScore" _ (by decide),
        objGet_backfill_ne _ "keywords" "atsScore" _ (by decide),
        show objGet fields85 "atsScore" = some (.num 85) from rfl,
        normalizeScoreValue_some _ _ (fun hh => JsonValue.noConfusion hh)]
    have h85 : scoreOfNumber (jsToNumber (.num 85))
        (estimateAtsScoreFromText text (extractKeywords text)) = 85 := by
      show ((clampRound 85 : ℤ) : ℚ) = 85
      decide
    rw [h85]
  · simp only [normalizeParsedJson]
    rw [objGet_objSet_ne _ "atsScore" "topSkills" _ (by decide),
        objGet_backfill_ne _ "topTokens" "topSkills" _ (by decide),
        objGet_backfill_ne _ "skillsFound" "topSkills" _ (by decide),
        objGet_backfill_ne _ "keywords" "topSkills" _ (by decide)]
    rfl
  · simp [analyzeAfterCall, hfail]

/-- C9 witness: the robustness statement at a body with no JSON object at
all. -/
theorem json_extraction_robustness_witness :
    extractJsonFromText analyzeBody85 = some (.obj fields85) ∧
    (∃ fs, analyzeAfterCall
        { ok := true, text := analyzeBody85, status := 200, attemptsMade := 1 } "hello world" =
          .success fs ∧
      objGet fs "atsScore" = some (.num 85) ∧
      objGet fs "topSkills" = some (.arr [.str "x"])) ∧
    analyzeAfterCall
        { ok := true, text := "no json at all", status := 200, attemptsMade := 1 }
        "hello world" =
      .rawFallback "no json at all"
        (estimateAtsScoreFromText "hello world" (extractKeywords "hello world"))
        (extractKeywords "hello world") :=
  json_extraction_robustness "no json at all" "hello world" 200 1 rfl

end Resume
